import Mathlib

/-!
# Verification of csv2pq (CSV to Apache Parquet converter)

Shallow embedding of the core logic of the `csv2pq` program:

* `consolidate_types` (src/main.rs, lines 70-137): consolidation of the
  i32, i64, f32 and f64 type directives into an override map and two
  default types;
* `apply_schema_overrides` (src/main.rs, lines 140-171): rewriting an
  inferred schema with the consolidated overrides and defaults;
* `RewindableReader` (src/rewindable_reader.rs): a reader over a plain or
  gzip-compressed file supporting a rewind-to-start operation;
* `TempFile` (src/tempfile.rs): an atomic file sink — exclusive creation of
  a temp file, sync + rename on commit, best-effort removal on drop;
* `process` (src/main.rs, lines 174-268): the per-file orchestration.

Rust `String` values that only ever take part in equality tests (column
names) are modelled as Lean `String`; file-path components, whose suffixes
are inspected and rewritten, are modelled as `List Char` so that the
suffix arithmetic is available to proofs.  The filesystem is modelled as an
association list from paths to entries; `HashMap` is modelled by an
association list with first-match lookup (`ovLookup`), which has the same
lookup semantics as insertion-replaces.
-/

namespace Csv2pq

/-! ## Data types (arrow_schema::DataType, restricted to the variants the
program manipulates: the four numeric target types plus the variants CSV
schema inference can produce). -/

/-- The subset of `arrow_schema::DataType` relevant to csv2pq: the four
numeric override targets, and the other inferrable CSV types which
`apply_schema_overrides` passes through unchanged. -/
inductive DataType where
  | int32
  | int64
  | float32
  | float64
  | utf8
  | boolean
  | date32
  | timestamp
  deriving DecidableEq, Repr

/-- `DEFAULT_INT_TYPE` (src/main.rs line 29). -/
def DEFAULT_INT_TYPE : DataType := DataType.int64

/-- `DEFAULT_FLOAT_TYPE` (src/main.rs line 32). -/
def DEFAULT_FLOAT_TYPE : DataType := DataType.float32

/-! ## The override map

`HashMap<String, DataType>` modelled as an association list with
first-match lookup; `ovInsert` conses the new binding (which shadows any
older one, matching `HashMap::insert`'s replace semantics) and returns the
previous value, matching the `Option` returned by `HashMap::insert`. -/

/-- Override map: models `HashMap<String, DataType>` by its lookup
semantics. -/
abbrev OvMap := List (String × DataType)

/-- First-match lookup in the override map (models `HashMap::get`). -/
def ovLookup (m : OvMap) (k : String) : Option DataType :=
  match m with
  | [] => none
  | (a, v) :: t => if a = k then some v else ovLookup t k

/-- Models `HashMap::insert`: the updated map together with the value
previously bound to the key (`None` if the key was absent). -/
def ovInsert (m : OvMap) (k : String) (v : DataType) : OvMap × Option DataType :=
  ((k, v) :: m, ovLookup m k)

/-! ## consolidate_types (src/main.rs lines 70-137) -/

/-- The error outcomes of `consolidate_types`, one constructor per
`anyhow!` message in the source:
* `intDefaultsConflict` — "i32 and i64 can't both be the default data types
  for integers" (line 90);
* `floatDefaultsConflict` — "f32 and f64 can't both be the default data
  types for floats" (line 97);
* `dupColumn c` — "Data type for column `c' was specified multiple times"
  (lines 113, 122, 131). -/
inductive CErr where
  | intDefaultsConflict
  | floatDefaultsConflict
  | dupColumn (c : String)
  deriving DecidableEq, Repr

/-- `c == "*" || c == "__all__"`: the two accepted wildcard spellings
(src/main.rs lines 85-86, 103, 110, 119, 128). -/
def isWildcard (c : String) : Bool :=
  c = "*" || c = "__all__"

/-- The loop over `i32_cols` (src/main.rs lines 102-108): a wildcard sets
the default integer type to Int32, any other name is inserted
unconditionally. This loop cannot fail. -/
def loop_i32 : List String → OvMap → DataType → OvMap × DataType
  | [], m, dint => (m, dint)
  | c :: cs, m, dint =>
      if isWildcard c then loop_i32 cs m DataType.int32
      else loop_i32 cs (ovInsert m c DataType.int32).1 dint

/-- The loop over `i64_cols` (src/main.rs lines 109-117): a wildcard sets
the default integer type to Int64; a name whose insertion returns a
previous binding is a fatal `dupColumn` error. -/
def loop_i64 : List String → OvMap → DataType → Except CErr (OvMap × DataType)
  | [], m, dint => Except.ok (m, dint)
  | c :: cs, m, dint =>
      if isWildcard c then loop_i64 cs m DataType.int64
      else
        let (m', old) := ovInsert m c DataType.int64
        if old.isSome then Except.error (CErr.dupColumn c)
        else loop_i64 cs m' dint

/-- The loop over `f32_cols` (src/main.rs lines 118-126): a wildcard sets
the default float type to Float32; a colliding insertion is a fatal
`dupColumn` error. -/
def loop_f32 : List String → OvMap → DataType → Except CErr (OvMap × DataType)
  | [], m, dfloat => Except.ok (m, dfloat)
  | c :: cs, m, dfloat =>
      if isWildcard c then loop_f32 cs m DataType.float32
      else
        let (m', old) := ovInsert m c DataType.float32
        if old.isSome then Except.error (CErr.dupColumn c)
        else loop_f32 cs m' dfloat

/-- The loop over `f64_cols` (src/main.rs lines 127-135): a wildcard sets
the default float type to Float64; a colliding insertion is a fatal
`dupColumn` error. -/
def loop_f64 : List String → OvMap → DataType → Except CErr (OvMap × DataType)
  | [], m, dfloat => Except.ok (m, dfloat)
  | c :: cs, m, dfloat =>
      if isWildcard c then loop_f64 cs m DataType.float64
      else
        let (m', old) := ovInsert m c DataType.float64
        if old.isSome then Except.error (CErr.dupColumn c)
        else loop_f64 cs m' dfloat

/-- Whether a directive list contains a wildcard spelling
(`cols.contains(&all1) || cols.contains(&all2)`, src/main.rs
lines 87-88, 94-95). -/
def containsWildcard (cols : List String) : Bool :=
  cols.contains "*" || cols.contains "__all__"

/-- The non-wildcard entries of a directive list: the names that are
inserted into the override map rather than setting a category default. -/
def nonWildcards (cols : List String) : List String :=
  cols.filter (fun c => !(isWildcard c))

/-- Common shape of the three strict loops (`loop_i64`, `loop_f32`,
`loop_f64`), abstracted over the inserted data type (which in the source
coincides with the default the wildcard selects in each of those three
loops).  Proof artifact only: the faithful embeddings remain the four
loops above. -/
def loop_strict (ty : DataType) : List String → OvMap → DataType → Except CErr (OvMap × DataType)
  | [], m, d => Except.ok (m, d)
  | c :: cs, m, d =>
      if isWildcard c then loop_strict ty cs m ty
      else
        let (m', old) := ovInsert m c ty
        if old.isSome then Except.error (CErr.dupColumn c)
        else loop_strict ty cs m' d

/-- `consolidate_types` (src/main.rs lines 70-137).  The four arguments
model `args.i32` … `args.f64` (`Option<Vec<String>>`).  Returns the
override map, the default integer type and the default float type, or the
first fatal error. -/
def consolidate_types (i32 i64 f32 f64 : Option (List String)) :
    Except CErr (OvMap × DataType × DataType) :=
  if i32.isNone ∧ i64.isNone ∧ f32.isNone ∧ f64.isNone then
    Except.ok ([], DEFAULT_INT_TYPE, DEFAULT_FLOAT_TYPE)
  else
    let i32_cols := i32.getD []
    let i64_cols := i64.getD []
    let f32_cols := f32.getD []
    let f64_cols := f64.getD []
    if containsWildcard i32_cols ∧ containsWildcard i64_cols then
      Except.error CErr.intDefaultsConflict
    else if containsWildcard f32_cols ∧ containsWildcard f64_cols then
      Except.error CErr.floatDefaultsConflict
    else
      let (m1, dint1) := loop_i32 i32_cols [] DEFAULT_INT_TYPE
      match loop_i64 i64_cols m1 dint1 with
      | Except.error e => Except.error e
      | Except.ok (m2, dint) =>
        match loop_f32 f32_cols m2 DEFAULT_FLOAT_TYPE with
        | Except.error e => Except.error e
        | Except.ok (m3, dfloat1) =>
          match loop_f64 f64_cols m3 dfloat1 with
          | Except.error e => Except.error e
          | Except.ok (m4, dfloat) => Except.ok (m4, dint, dfloat)

/-! ## apply_schema_overrides (src/main.rs lines 140-171) -/

/-- A schema field: `arrow_schema::Field` restricted to the three
attributes the program reads and writes (name, data type, nullability). -/
structure Field where
  name : String
  dataType : DataType
  nullable : Bool
  deriving DecidableEq, Repr

/-- A schema: the ordered field list of `arrow_schema::Schema`. -/
structure Schema where
  fields : List Field
  deriving DecidableEq, Repr

/-- The per-field rewrite inside the loop of `apply_schema_overrides`
(src/main.rs lines 147-167): an override by name wins; otherwise an
inferred `Int64` becomes the default integer type and an inferred
`Float64` becomes the default float type; anything else is rebuilt
unchanged. Nullability is preserved in every branch. -/
def rewriteField (overrides : OvMap) (default_int_type default_float_type : DataType)
    (f : Field) : Field :=
  match ovLookup overrides f.name with
  | some datatype => { name := f.name, dataType := datatype, nullable := f.nullable }
  | none =>
    match f.dataType with
    | DataType.int64 =>
        { name := f.name, dataType := default_int_type, nullable := f.nullable }
    | DataType.float64 =>
        { name := f.name, dataType := default_float_type, nullable := f.nullable }
    | datatype => { name := f.name, dataType := datatype, nullable := f.nullable }

/-- `apply_schema_overrides` (src/main.rs lines 140-171). The source
mutates `schema` in place and returns `Result<()>`; the model returns the
new schema wrapped in `Except`, whose error case is never used — the body
has no fallible operation. -/
def apply_schema_overrides (schema : Schema) (overrides : OvMap)
    (default_int_type default_float_type : DataType) : Except String Schema :=
  Except.ok
    { fields :=
        schema.fields.map (rewriteField overrides default_int_type default_float_type) }

/-! ## RewindableReader (src/rewindable_reader.rs)

Bytes are modelled as `Nat`.  A `File` is its immutable byte content plus a
seek position.  `MultiGzDecoder` is modelled abstractly by a decode
function `D : List Nat → List Nat` (a parameter of the read operation):
a decoder constructed over a file whose seek position is `start` emits the
byte stream `D (contents.drop start)`, and its internal state is the count
of bytes already emitted.  This captures exactly what the source relies
on: a decoder is not seekable, and a fresh decoder over a rewound file
re-emits the decoded stream from its beginning. -/

/-- `RewindableReader` (src/rewindable_reader.rs lines 10-15).
`plain contents pos` models `Plain(File)` with the file's byte content and
seek position; `compressed contents start emitted` models
`Compressed(MultiGzDecoder<File>)` where the decoder was constructed over
the file seeked to `start` and has already emitted `emitted` decoded
bytes. -/
inductive RewindableReader where
  | plain (contents : List Nat) (pos : Nat)
  | compressed (contents : List Nat) (start emitted : Nat)
  deriving DecidableEq, Repr

namespace RewindableReader

/-- `RewindableReader::open` (src/rewindable_reader.rs lines 19-27): the
filename chooses the variant by the `.gz` suffix; `File::open` yields a
handle at position 0, and `MultiGzDecoder::new` wraps it immediately. -/
def openReader (filename : List Char) (contents : List Nat) : RewindableReader :=
  if (String.mk filename).endsWith ".gz" then
    RewindableReader.compressed contents 0 0
  else
    RewindableReader.plain contents 0

/-- One `read` call (src/rewindable_reader.rs lines 46-51) with a buffer of
size `n`, parameterised by the decode function `D` of the gzip decoder:
returns the bytes read and the advanced reader. A plain read takes the
next `n` bytes at the seek position; a compressed read takes the next `n`
bytes of the decoded stream. -/
def readBytes (D : List Nat → List Nat) :
    RewindableReader → Nat → List Nat × RewindableReader
  | RewindableReader.plain contents pos, n =>
      let out := (contents.drop pos).take n
      (out, RewindableReader.plain contents (pos + out.length))
  | RewindableReader.compressed contents start emitted, n =>
      let out := ((D (contents.drop start)).drop emitted).take n
      (out, RewindableReader.compressed contents start (emitted + out.length))

/-- `RewindableReader::rewind` (src/rewindable_reader.rs lines 30-42): the
plain variant reseeks the file to 0; the compressed variant recovers the
file with `into_inner`, reseeks it to 0 and wraps it in a brand-new
decoder (so `start = 0` and `emitted = 0`). -/
def rewind : RewindableReader → RewindableReader
  | RewindableReader.plain contents _ => RewindableReader.plain contents 0
  | RewindableReader.compressed contents _ _ => RewindableReader.compressed contents 0 0

end RewindableReader

/-! ## Filesystem model

Paths are a directory part and a basename, mirroring how `process`
manipulates them (`file_name`, `pop`, `push`); basenames are `List Char`
so the suffix rewriting of the source is available to proofs.  The
filesystem is an association list from paths to entries with first-match
lookup. -/

/-- A filesystem path split as `process` uses it: the parent directory and
the final component (`file_name`). -/
structure FsPath where
  dir : List Char
  base : List Char
  deriving DecidableEq, Repr

/-- A filesystem entry: a regular file with its byte content, or a
directory (any non-regular-file object, which makes `is_file` false while
`exists` is true). -/
inductive Entry where
  | file (data : List Nat)
  | directory
  deriving DecidableEq, Repr

/-- The filesystem: an association list from paths to entries. -/
abbrev FS := List (FsPath × Entry)

namespace FS

/-- First-match lookup of a path. -/
def lookup : FS → FsPath → Option Entry
  | [], _ => none
  | (q, e) :: t, p => if q = p then some e else lookup t p

/-- `Path::exists`: some entry is present at the path. -/
def pathExists (fs : FS) (p : FsPath) : Bool :=
  (lookup fs p).isSome

/-- `Path::is_file`: a regular file is present at the path. -/
def isFile (fs : FS) (p : FsPath) : Bool :=
  match lookup fs p with
  | some (Entry.file _) => true
  | _ => false

/-- `std::fs::remove_file`: removes every binding of the path (no-op when
the path is absent, matching the best-effort uses in the source). -/
def remove : FS → FsPath → FS
  | [], _ => []
  | (q, e) :: t, p => if q = p then remove t p else (q, e) :: remove t p

/-- Binds a path to an entry, shadowing and dropping any previous
binding. -/
def setEntry (fs : FS) (p : FsPath) (e : Entry) : FS :=
  (p, e) :: remove fs p

/-- `std::fs::rename`: moves the entry at `src` to `dst`, overwriting any
entry at `dst` (POSIX semantics); no-op source absence is modelled by
returning the filesystem unchanged (the caller observes the failure
separately). -/
def rename (fs : FS) (src dst : FsPath) : FS :=
  match lookup fs src with
  | none => fs
  | some e => (dst, e) :: remove fs src

end FS

/-! ## TempFile (src/tempfile.rs) -/

/-- `TempFile` (src/tempfile.rs lines 8-11): the sink remembers its temp
path; the open file handle lives in the filesystem model. -/
structure TempFile where
  tmp_filename : FsPath
  deriving DecidableEq, Repr

namespace TempFile

/-- `TempFile::create_new` (src/tempfile.rs lines 15-18):
`File::create_new` creates the file exclusively — it fails if any entry
already exists at the path, and otherwise creates an empty regular
file. -/
def create_new (tmp_filename : FsPath) (fs : FS) : Except Unit (TempFile × FS) :=
  if FS.pathExists fs tmp_filename then Except.error ()
  else Except.ok (⟨tmp_filename⟩, FS.setEntry fs tmp_filename (Entry.file []))

/-- `impl Write for TempFile` (src/tempfile.rs lines 27-35): appends the
buffer to the file at the temp path. -/
def write (tf : TempFile) (buf : List Nat) (fs : FS) : FS :=
  match FS.lookup fs tf.tmp_filename with
  | some (Entry.file data) => FS.setEntry fs tf.tmp_filename (Entry.file (data ++ buf))
  | _ => fs

/-- `impl Drop for TempFile` (src/tempfile.rs lines 37-41): best-effort
removal of the temp path, the result ignored. -/
def dropCleanup (tf : TempFile) (fs : FS) : FS :=
  FS.remove fs tf.tmp_filename

/-- `TempFile::flush_and_rename` (src/tempfile.rs lines 21-24): `sync_all`
(its success given by `syncOk`), then `rename(tmp, new)`.  Because
`TempFile` implements `Drop` and the method takes `self` by value, Rust
runs `Drop::drop` on the receiver when the method returns — on every path,
including after a successful rename — so the model applies `dropCleanup`
before returning.  The `Bool` is whether the method returned `Ok`. -/
def flush_and_rename (tf : TempFile) (syncOk : Bool) (new_filename : FsPath) (fs : FS) :
    FS × Bool :=
  if syncOk then
    match FS.lookup fs tf.tmp_filename with
    | some _ => (dropCleanup tf (FS.rename fs tf.tmp_filename new_filename), true)
    | none => (dropCleanup tf fs, false)
  else (dropCleanup tf fs, false)

end TempFile

/-! ## Per-file orchestration: process (src/main.rs lines 174-268) -/

/-- `str::strip_suffix`: `some` of the input minus the suffix when the
suffix matches, else `none`. -/
def strip_suffix (s suff : List Char) : Option (List Char) :=
  if suff.length ≤ s.length ∧ s.drop (s.length - suff.length) = suff then
    some (s.take (s.length - suff.length))
  else none

/-- The basename computation of `process` (src/main.rs lines 210-220):
strip `.csv`, else strip `.csv.gz`, else the file is skipped. -/
def stripFormatSuffix (base : List Char) : Option (List Char) :=
  match strip_suffix base ".csv".toList with
  | some b => some b
  | none => strip_suffix base ".csv.gz".toList

/-- The command-line flags `process` consults (src/main.rs lines 60-66);
the four type-directive lists are consumed by `consolidate_types` before
`process` runs and are passed separately. -/
structure Args where
  print_schema : Bool
  rm : Bool
  deriving DecidableEq, Repr

/-- Outcomes of the external collaborators along one `process` run:
whether schema inference over the first pass succeeds, whether the
read-batches/write-batches/close loop succeeds, and whether the final
`sync_all` succeeds. -/
structure Oracle where
  inferOk : Bool
  streamOk : Bool
  syncOk : Bool
  deriving DecidableEq, Repr

/-- The observable states of one `process` run, in the order the source
reaches them. -/
inductive Ev where
  | skip
  | inferSchema
  | rewriteSchema
  | printOnly
  | openSink
  | streamRows
  | commit
  | fail
  deriving DecidableEq, Repr

/-- Result of one `process` run: the trace of states reached, the final
filesystem, and whether `process` returned `Ok` (an `Err` aborts the whole
multi-file run in `main`). -/
structure PResult where
  trace : List Ev
  fs : FS
  ok : Bool
  deriving DecidableEq, Repr

/-- `process` (src/main.rs lines 174-268), one input file against the
filesystem `fs`:
* line 181: skip unless the input is a regular file;
* lines 190-199: open the reader, infer the schema (success per
  `o.inferOk`; failure propagates), apply the overrides;
* lines 200-205: in print-schema mode, print and return `Ok`;
* lines 207-225: compute the output basename from the recognized suffix
  (else skip) and derive the final and temp paths;
* lines 226-239: skip if the final or the temp path already exists;
* line 240: create the temp file exclusively;
* lines 244-257: rewind and stream the row batches (success per
  `o.streamOk`; on failure the error propagates and the dropped sink
  removes the temp file);
* line 258: `flush_and_rename` (sync success per `o.syncOk`);
* lines 259-266: with `--rm`, best-effort removal of the input. -/
def process (o : Oracle) (args : Args) (filename : FsPath) (fs : FS) : PResult :=
  if ¬ FS.isFile fs filename then
    { trace := [Ev.skip], fs := fs, ok := true }
  else if ¬ o.inferOk then
    { trace := [Ev.inferSchema, Ev.fail], fs := fs, ok := false }
  else if args.print_schema then
    { trace := [Ev.inferSchema, Ev.rewriteSchema, Ev.printOnly], fs := fs, ok := true }
  else
    match stripFormatSuffix filename.base with
    | none =>
        { trace := [Ev.inferSchema, Ev.rewriteSchema, Ev.skip], fs := fs, ok := true }
    | some b =>
      let basename := b ++ ".parquet".toList
      let new_filename : FsPath := ⟨filename.dir, basename⟩
      let tmp_filename : FsPath := ⟨filename.dir, ".tmp.".toList ++ basename⟩
      if FS.pathExists fs new_filename then
        { trace := [Ev.inferSchema, Ev.rewriteSchema, Ev.skip], fs := fs, ok := true }
      else if FS.pathExists fs tmp_filename then
        { trace := [Ev.inferSchema, Ev.rewriteSchema, Ev.skip], fs := fs, ok := true }
      else
        match TempFile.create_new tmp_filename fs with
        | Except.error _ =>
            { trace := [Ev.inferSchema, Ev.rewriteSchema, Ev.fail], fs := fs, ok := false }
        | Except.ok (output, fs1) =>
          if ¬ o.streamOk then
            { trace := [Ev.inferSchema, Ev.rewriteSchema, Ev.openSink, Ev.streamRows, Ev.fail],
              fs := output.dropCleanup fs1, ok := false }
          else
            let r := output.flush_and_rename o.syncOk new_filename fs1
            if r.2 then
              { trace :=
                  [Ev.inferSchema, Ev.rewriteSchema, Ev.openSink, Ev.streamRows, Ev.commit],
                fs := if args.rm then FS.remove r.1 filename else r.1, ok := true }
            else
              { trace :=
                  [Ev.inferSchema, Ev.rewriteSchema, Ev.openSink, Ev.streamRows, Ev.fail],
                fs := r.1, ok := false }

/-- The per-file loop of `main` (src/main.rs lines 275-283): files are
processed in order; the first `Err` aborts the run. -/
def processAll (o : Oracle) (args : Args) : List FsPath → FS → FS × Bool
  | [], fs => (fs, true)
  | f :: rest, fs =>
    let r := process o args f fs
    if r.ok then processAll o args rest r.fs else (r.fs, false)

/-- `main` (src/main.rs lines 270-285): consolidate the type directives
first; a consolidation error aborts before any file is processed. -/
def mainRun (o : Oracle) (args : Args) (i32 i64 f32 f64 : Option (List String))
    (files : List FsPath) (fs : FS) : FS × Bool :=
  match consolidate_types i32 i64 f32 f64 with
  | Except.error _ => (fs, false)
  | Except.ok _ => processAll o args files fs

/-! ## Supporting lemmas: the filesystem model -/

namespace FS

theorem lookup_remove (fs : FS) (p x : FsPath) :
    lookup (remove fs p) x = if x = p then none else lookup fs x := by
  induction fs with
  | nil => simp [remove, lookup]
  | cons hd t ih =>
    obtain ⟨q, e⟩ := hd
    by_cases hq : q = p
    · subst hq
      by_cases hx : x = q
      · subst hx; simp [remove, ih]
      · simp [remove, lookup, ih, hx, Ne.symm hx]
    · by_cases hx : q = x
      · subst hx
        simp [remove, lookup, hq, Ne.symm hq]
      · simp [remove, lookup, hq, hx, ih]

theorem remove_of_lookup_none (fs : FS) (p : FsPath) (h : lookup fs p = none) :
    remove fs p = fs := by
  induction fs with
  | nil => rfl
  | cons hd t ih =>
    obtain ⟨q, e⟩ := hd
    by_cases hq : q = p
    · subst hq; simp [lookup] at h
    · simp [lookup, hq] at h
      simp [remove, hq, ih h]

theorem remove_remove_self (fs : FS) (p : FsPath) :
    remove (remove fs p) p = remove fs p := by
  apply remove_of_lookup_none
  simp [lookup_remove]

theorem lookup_setEntry (fs : FS) (p : FsPath) (e : Entry) (x : FsPath) :
    lookup (setEntry fs p e) x = if p = x then some e else lookup fs x := by
  by_cases hx : p = x
  · subst hx; simp [setEntry, lookup]
  · simp [setEntry, lookup, hx, lookup_remove, Ne.symm hx]

end FS

/-! ## Supporting lemmas: suffix stripping -/

theorem strip_suffix_eq {s suff b : List Char} (h : strip_suffix s suff = some b) :
    s = b ++ suff := by
  unfold strip_suffix at h
  split at h
  · rename_i hc
    injection h with h
    subst h
    conv_lhs => rw [← List.take_append_drop (s.length - suff.length) s]
    rw [hc.2]
  · exact absurd h (by simp)

theorem stripFormatSuffix_eq {base b : List Char} (h : stripFormatSuffix base = some b) :
    base = b ++ ".csv".toList ∨ base = b ++ ".csv.gz".toList := by
  unfold stripFormatSuffix at h
  cases h1 : strip_suffix base ".csv".toList with
  | some b1 =>
    rw [h1] at h
    injection h with h
    subst h
    exact Or.inl (strip_suffix_eq h1)
  | none =>
    rw [h1] at h
    exact Or.inr (strip_suffix_eq h)

theorem stripFormat_base_ne_parquet {base b : List Char}
    (h : stripFormatSuffix base = some b) : base ≠ b ++ ".parquet".toList := by
  have c1 : (".csv".toList).length = 4 := by decide
  have c2 : (".csv.gz".toList).length = 7 := by decide
  have c3 : (".parquet".toList).length = 8 := by decide
  rcases stripFormatSuffix_eq h with h1 | h1 <;> rw [h1] <;> intro h2 <;>
    have h3 := congrArg List.length h2 <;>
    simp only [List.length_append, c1, c2, c3] at h3 <;> omega

theorem stripFormat_base_ne_tmp {base b : List Char}
    (h : stripFormatSuffix base = some b) :
    base ≠ ".tmp.".toList ++ (b ++ ".parquet".toList) := by
  have c1 : (".csv".toList).length = 4 := by decide
  have c2 : (".csv.gz".toList).length = 7 := by decide
  have c3 : (".parquet".toList).length = 8 := by decide
  have c4 : (".tmp.".toList).length = 5 := by decide
  rcases stripFormatSuffix_eq h with h1 | h1 <;> rw [h1] <;> intro h2 <;>
    have h3 := congrArg List.length h2 <;>
    simp only [List.length_append, c1, c2, c3, c4] at h3 <;> omega

theorem parquet_ne_tmp (b : List Char) :
    b ++ ".parquet".toList ≠ ".tmp.".toList ++ (b ++ ".parquet".toList) := by
  have c3 : (".parquet".toList).length = 8 := by decide
  have c4 : (".tmp.".toList).length = 5 := by decide
  intro h2
  have h3 := congrArg List.length h2
  simp only [List.length_append, c3, c4] at h3
  omega

/-! ## Supporting lemmas: the consolidation loops -/

theorem nonWildcards_nil : nonWildcards [] = [] := rfl

theorem nonWildcards_cons (c : String) (cs : List String) :
    nonWildcards (c :: cs) =
      if isWildcard c then nonWildcards cs else c :: nonWildcards cs := by
  by_cases hw : isWildcard c <;> simp [nonWildcards, List.filter_cons, hw]

theorem loop_i32_lookup (cs : List String) (m : OvMap) (dint : DataType) (x : String) :
    ovLookup (loop_i32 cs m dint).1 x =
      if x ∈ nonWildcards cs then some DataType.int32 else ovLookup m x := by
  induction cs generalizing m dint with
  | nil => simp [loop_i32, nonWildcards]
  | cons c cs ih =>
    by_cases hw : isWildcard c
    · simp [loop_i32, hw, nonWildcards_cons, ih]
    · rw [loop_i32]
      simp only [hw, Bool.false_eq_true, if_false, nonWildcards_cons, ih, ovInsert]
      by_cases hx : x ∈ nonWildcards cs
      · simp [hx]
      · by_cases hcx : x = c
        · subst hcx
          simp [hx, ovLookup]
        · simp [hx, hcx, ovLookup, Ne.symm hcx]

theorem loop_i64_eq_strict (cs : List String) (m : OvMap) (d : DataType) :
    loop_i64 cs m d = loop_strict DataType.int64 cs m d := by
  induction cs generalizing m d with
  | nil => rfl
  | cons c cs ih =>
    rw [loop_i64, loop_strict]
    by_cases hw : isWildcard c
    · simp [hw, ih]
    · simp [hw, ih]

theorem loop_f32_eq_strict (cs : List String) (m : OvMap) (d : DataType) :
    loop_f32 cs m d = loop_strict DataType.float32 cs m d := by
  induction cs generalizing m d with
  | nil => rfl
  | cons c cs ih =>
    rw [loop_f32, loop_strict]
    by_cases hw : isWildcard c
    · simp [hw, ih]
    · simp [hw, ih]

theorem loop_f64_eq_strict (cs : List String) (m : OvMap) (d : DataType) :
    loop_f64 cs m d = loop_strict DataType.float64 cs m d := by
  induction cs generalizing m d with
  | nil => rfl
  | cons c cs ih =>
    rw [loop_f64, loop_strict]
    by_cases hw : isWildcard c
    · simp [hw, ih]
    · simp [hw, ih]

theorem loop_strict_ok_of (ty : DataType) (cs : List String) (m : OvMap) (d : DataType)
    (hnd : (nonWildcards cs).Nodup)
    (hdisj : ∀ x ∈ nonWildcards cs, ovLookup m x = none) :
    ∃ m' d', loop_strict ty cs m d = Except.ok (m', d') ∧
      ∀ x, ovLookup m' x = if x ∈ nonWildcards cs then some ty else ovLookup m x := by
  induction cs generalizing m d with
  | nil => exact ⟨m, d, rfl, fun x => by simp [nonWildcards]⟩
  | cons c cs ih =>
    by_cases hw : isWildcard c
    · rw [nonWildcards_cons] at hnd hdisj
      simp only [hw, if_true] at hnd hdisj
      obtain ⟨m', d', hok, hch⟩ := ih m ty hnd hdisj
      refine ⟨m', d', ?_, ?_⟩
      · rw [loop_strict]; simp [hw, hok]
      · intro x
        rw [nonWildcards_cons]
        simp [hw, hch]
    · rw [nonWildcards_cons] at hnd hdisj
      simp only [hw, Bool.false_eq_true, if_false] at hnd hdisj
      have hc : ovLookup m c = none := hdisj c (List.mem_cons_self c _)
      have hnd' : (nonWildcards cs).Nodup := hnd.of_cons
      have hcn : c ∉ nonWildcards cs := (List.nodup_cons.mp hnd).1
      have hdisj' : ∀ x ∈ nonWildcards cs, ovLookup ((c, ty) :: m) x = none := by
        intro x hx
        have hne : c ≠ x := fun h => hcn (h ▸ hx)
        simp [ovLookup, hne, hdisj x (List.mem_cons_of_mem _ hx)]
      obtain ⟨m', d', hok, hch⟩ := ih ((c, ty) :: m) d hnd' hdisj'
      refine ⟨m', d', ?_, ?_⟩
      · rw [loop_strict]
        simp [hw, ovInsert, hc, hok]
      · intro x
        rw [nonWildcards_cons]
        simp only [hw, Bool.false_eq_true, if_false]
        rw [hch x]
        by_cases hx : x ∈ nonWildcards cs
        · simp [hx, List.mem_cons_of_mem _ hx]
        · by_cases hcx : x = c
          · subst hcx
            simp [hx, ovLookup]
          · simp [hx, hcx, ovLookup, Ne.symm hcx]

theorem loop_strict_ok_inv (ty : DataType) (cs : List String) (m : OvMap) (d : DataType)
    (m' : OvMap) (d' : DataType) (h : loop_strict ty cs m d = Except.ok (m', d')) :
    (nonWildcards cs).Nodup ∧ ∀ x ∈ nonWildcards cs, ovLookup m x = none := by
  induction cs generalizing m d with
  | nil => simp [nonWildcards]
  | cons c cs ih =>
    rw [loop_strict] at h
    by_cases hw : isWildcard c
    · simp only [hw, if_true] at h
      obtain ⟨hnd, hdisj⟩ := ih m ty h
      rw [nonWildcards_cons]
      simp only [hw, if_true]
      exact ⟨hnd, hdisj⟩
    · simp only [hw, Bool.false_eq_true, if_false, ovInsert] at h
      by_cases hc : (ovLookup m c).isSome
      · simp [hc] at h
      · simp only [hc, Bool.false_eq_true, if_false] at h
        obtain ⟨hnd, hdisj⟩ := ih ((c, ty) :: m) d h
        have hcnone : ovLookup m c = none := by
          cases hcm : ovLookup m c with
          | none => rfl
          | some v => rw [hcm] at hc; simp at hc
        have hcn : c ∉ nonWildcards cs := by
          intro hmem
          have := hdisj c hmem
          simp [ovLookup] at this
        rw [nonWildcards_cons]
        simp only [hw, Bool.false_eq_true, if_false]
        refine ⟨List.nodup_cons.mpr ⟨hcn, hnd⟩, ?_⟩
        intro x hx
        rcases List.mem_cons.mp hx with hxc | hxs
        · subst hxc; exact hcnone
        · have := hdisj x hxs
          by_cases hcx : c = x
          · subst hcx; exact hcnone
          · simpa [ovLookup, hcx] using this

theorem loop_strict_shape (ty : DataType) (cs : List String) (m : OvMap) (d : DataType) :
    (∃ r, loop_strict ty cs m d = Except.ok r) ∨
      ∃ c, loop_strict ty cs m d = Except.error (CErr.dupColumn c) := by
  induction cs generalizing m d with
  | nil => exact Or.inl ⟨(m, d), rfl⟩
  | cons c cs ih =>
    rw [loop_strict]
    by_cases hw : isWildcard c
    · simpa [hw] using ih m ty
    · simp only [hw, Bool.false_eq_true, if_false, ovInsert]
      by_cases hc : (ovLookup m c).isSome
      · exact Or.inr ⟨c, by simp [hc]⟩
      · simpa [hc] using ih ((c, ty) :: m) d

/-! ## Supporting lemmas: rewriteField -/

theorem rewriteField_spec (ov : OvMap) (di df : DataType) (f : Field) :
    (rewriteField ov di df f).name = f.name ∧
    (rewriteField ov di df f).nullable = f.nullable ∧
    (∀ t, ovLookup ov f.name = some t → (rewriteField ov di df f).dataType = t) ∧
    (ovLookup ov f.name = none →
      (f.dataType = DataType.int64 → (rewriteField ov di df f).dataType = di) ∧
      (f.dataType = DataType.float64 → (rewriteField ov di df f).dataType = df) ∧
      (f.dataType ≠ DataType.int64 → f.dataType ≠ DataType.float64 →
        (rewriteField ov di df f).dataType = f.dataType)) := by
  obtain ⟨n, dt, nb⟩ := f
  unfold rewriteField
  cases hov : ovLookup ov n with
  | some t => simp
  | none => cases dt <;> simp

/-- After the three consolidation guards, a collision anywhere from the
i64 list onward (a name already present in the override map, or repeated
within one strict list) forces a `dupColumn` error. -/
theorem consolidate_collision_err (i32 i64 f32 f64 : Option (List String))
    (hw1 : ¬(containsWildcard (i32.getD []) = true ∧
             containsWildcard (i64.getD []) = true))
    (hw2 : ¬(containsWildcard (f32.getD []) = true ∧
             containsWildcard (f64.getD []) = true))
    (hnodup : ¬((nonWildcards (i32.getD [])).dedup ++ nonWildcards (i64.getD []) ++
        nonWildcards (f32.getD []) ++ nonWildcards (f64.getD [])).Nodup) :
    ∃ d, consolidate_types i32 i64 f32 f64 = Except.error (CErr.dupColumn d) := by
  have hall : ¬(i32.isNone ∧ i64.isNone ∧ f32.isNone ∧ f64.isNone) := by
    rintro ⟨g1, g2, g3, g4⟩
    apply hnodup
    have e1 : i32.getD [] = [] := by cases i32 with | none => rfl | some l => simp at g1
    have e2 : i64.getD [] = [] := by cases i64 with | none => rfl | some l => simp at g2
    have e3 : f32.getD [] = [] := by cases f32 with | none => rfl | some l => simp at g3
    have e4 : f64.getD [] = [] := by cases f64 with | none => rfl | some l => simp at g4
    simp [e1, e2, e3, e4, nonWildcards]
  unfold consolidate_types
  rw [if_neg hall]
  dsimp only []
  rw [if_neg hw1, if_neg hw2]
  rcases hl32 : loop_i32 (i32.getD []) [] DEFAULT_INT_TYPE with ⟨m1, dint1⟩
  dsimp only []
  have hm1 : ∀ x, ovLookup m1 x =
      if x ∈ nonWildcards (i32.getD []) then some DataType.int32 else none := by
    intro x
    have h := loop_i32_lookup (i32.getD []) [] DEFAULT_INT_TYPE x
    rw [hl32] at h
    exact h
  rw [loop_i64_eq_strict]
  rcases loop_strict_shape DataType.int64 (i64.getD []) m1 dint1 with
    ⟨⟨m2, dint2⟩, hok2⟩ | ⟨c, herr⟩
  swap
  · exact ⟨c, by rw [herr]⟩
  rw [hok2]
  dsimp only []
  obtain ⟨hndB, hdisjB⟩ := loop_strict_ok_inv DataType.int64 (i64.getD []) m1 dint1
    m2 dint2 hok2
  obtain ⟨m2', dint2', hok2', hch2⟩ := loop_strict_ok_of DataType.int64 (i64.getD [])
    m1 dint1 hndB hdisjB
  rw [hok2] at hok2'
  rw [Except.ok.injEq, Prod.mk.injEq] at hok2'
  obtain ⟨hm2e, -⟩ := hok2'
  rw [← hm2e] at hch2
  rw [loop_f32_eq_strict]
  rcases loop_strict_shape DataType.float32 (f32.getD []) m2 DEFAULT_FLOAT_TYPE with
    ⟨⟨m3, dfloat3⟩, hok3⟩ | ⟨c, herr⟩
  swap
  · exact ⟨c, by rw [herr]⟩
  rw [hok3]
  dsimp only []
  obtain ⟨hndC, hdisjC⟩ := loop_strict_ok_inv DataType.float32 (f32.getD []) m2
    DEFAULT_FLOAT_TYPE m3 dfloat3 hok3
  obtain ⟨m3', dfloat3', hok3', hch3⟩ := loop_strict_ok_of DataType.float32
    (f32.getD []) m2 DEFAULT_FLOAT_TYPE hndC hdisjC
  rw [hok3] at hok3'
  rw [Except.ok.injEq, Prod.mk.injEq] at hok3'
  obtain ⟨hm3e, -⟩ := hok3'
  rw [← hm3e] at hch3
  rw [loop_f64_eq_strict]
  rcases loop_strict_shape DataType.float64 (f64.getD []) m3 dfloat3 with
    ⟨⟨m4, dfloat4⟩, hok4⟩ | ⟨c, herr⟩
  swap
  · exact ⟨c, by rw [herr]⟩
  obtain ⟨hndD, hdisjD⟩ := loop_strict_ok_inv DataType.float64 (f64.getD []) m3
    dfloat3 m4 dfloat4 hok4
  exfalso
  apply hnodup
  have hBnA : ∀ x ∈ nonWildcards (i64.getD []), x ∉ nonWildcards (i32.getD []) := by
    intro x hxB hxA
    have h := hdisjB x hxB
    rw [hm1 x, if_pos hxA] at h
    exact Option.noConfusion h
  have hCn : ∀ x ∈ nonWildcards (f32.getD []),
      x ∉ nonWildcards (i64.getD []) ∧ x ∉ nonWildcards (i32.getD []) := by
    intro x hxC
    have h := hdisjC x hxC
    rw [hch2 x] at h
    by_cases hB : x ∈ nonWildcards (i64.getD [])
    · rw [if_pos hB] at h; exact Option.noConfusion h
    · rw [if_neg hB, hm1 x] at h
      by_cases hA : x ∈ nonWildcards (i32.getD [])
      · rw [if_pos hA] at h; exact Option.noConfusion h
      · exact ⟨hB, hA⟩
  have hDn : ∀ x ∈ nonWildcards (f64.getD []),
      x ∉ nonWildcards (f32.getD []) ∧ x ∉ nonWildcards (i64.getD []) ∧
        x ∉ nonWildcards (i32.getD []) := by
    intro x hxD
    have h := hdisjD x hxD
    rw [hch3 x] at h
    by_cases hC : x ∈ nonWildcards (f32.getD [])
    · rw [if_pos hC] at h; exact Option.noConfusion h
    · rw [if_neg hC, hch2 x] at h
      by_cases hB : x ∈ nonWildcards (i64.getD [])
      · rw [if_pos hB] at h; exact Option.noConfusion h
      · rw [if_neg hB, hm1 x] at h
        by_cases hA : x ∈ nonWildcards (i32.getD [])
        · rw [if_pos hA] at h; exact Option.noConfusion h
        · exact ⟨hC, hB, hA⟩
  refine List.Nodup.append (List.Nodup.append (List.Nodup.append
      (List.nodup_dedup _) hndB ?_) hndC ?_) hndD ?_
  · intro a haA haB
    exact hBnA a haB (List.mem_dedup.mp haA)
  · rw [List.disjoint_append_left]
    refine ⟨?_, ?_⟩
    · intro a haA haC
      exact (hCn a haC).2 (List.mem_dedup.mp haA)
    · intro a haB haC
      exact (hCn a haC).1 haB
  · rw [List.disjoint_append_left, List.disjoint_append_left]
    refine ⟨⟨?_, ?_⟩, ?_⟩
    · intro a haA haD
      exact (hDn a haD).2.2 (List.mem_dedup.mp haA)
    · intro a haB haD
      exact (hDn a haD).2.1 haB
    · intro a haC haD
      exact (hDn a haD).1 haC

/-! ## Claim theorems -/

/-- C3: consolidation processes i32 → i64 → f32 → f64; (1) every
non-wildcard name of the i32 list is inserted unconditionally (after the
i32 loop it is bound to Int32, duplicates included); (2) a duplicate
within the i32 list alone is not an error — consolidation succeeds; (3)
from the i64 list onward, any insertion colliding with an entry already in
the override map (including one from the i32 list, or a repeat within a
later list) makes consolidation fail with a `dupColumn` error naming a
column — never a silent override. -/
theorem c3_first_category_exempt :
    (∀ (i32c : List String) (m : OvMap) (dint : DataType) (x : String),
       x ∈ nonWildcards i32c →
       ovLookup (loop_i32 i32c m dint).1 x = some DataType.int32) ∧
    (∀ i32c : List String,
       (consolidate_types (some i32c) none none none).isOk = true) ∧
    (∀ i32 i64 f32 f64 : Option (List String),
       ¬(containsWildcard (i32.getD []) = true ∧
         containsWildcard (i64.getD []) = true) →
       ¬(containsWildcard (f32.getD []) = true ∧
         containsWildcard (f64.getD []) = true) →
       ¬((nonWildcards (i32.getD [])).dedup ++ nonWildcards (i64.getD []) ++
           nonWildcards (f32.getD []) ++ nonWildcards (f64.getD [])).Nodup →
       ∃ d, consolidate_types i32 i64 f32 f64 = Except.error (CErr.dupColumn d)) := by
  refine ⟨?_, ?_, consolidate_collision_err⟩
  · intro i32c m dint x hx
    rw [loop_i32_lookup]
    simp [hx]
  · intro i32c
    have hcw0 : containsWildcard ([] : List String) = false := rfl
    unfold consolidate_types
    rw [if_neg (by simp)]
    dsimp only []
    rw [if_neg (by simp [hcw0]), if_neg (by simp [hcw0])]
    rcases hl32 : loop_i32 i32c [] DEFAULT_INT_TYPE with ⟨m1, dint1⟩
    dsimp only [loop_i64, loop_f32, loop_f64]
    rfl

/-- C3 witness: a duplicate inside i32 alone succeeds; the same name in
i32 and i64 yields a `dupColumn` error. -/
theorem c3_witness :
    ("a" ∈ nonWildcards ["a", "a"] ∧
      ovLookup (loop_i32 ["a", "a"] [] DataType.int64).1 "a" = some DataType.int32) ∧
    (consolidate_types (some ["a", "a"]) none none none).isOk = true ∧
    (¬(containsWildcard ((some ["a"] : Option (List String)).getD []) = true ∧
        containsWildcard ((some ["a"] : Option (List String)).getD []) = true) ∧
     ¬((nonWildcards ((some ["a"] : Option (List String)).getD [])).dedup ++
         nonWildcards ((some ["a"] : Option (List String)).getD []) ++
         nonWildcards ((none : Option (List String)).getD []) ++
         nonWildcards ((none : Option (List String)).getD [])).Nodup ∧
     ∃ d, consolidate_types (some ["a"]) (some ["a"]) none none =
        Except.error (CErr.dupColumn d)) :=
  ⟨⟨by decide, c3_first_category_exempt.1 ["a", "a"] [] DataType.int64 "a" (by decide)⟩,
   c3_first_category_exempt.2.1 ["a", "a"],
   by decide, by decide,
   c3_first_category_exempt.2.2 (some ["a"]) (some ["a"]) none none
     (by decide) (by decide) (by decide)⟩

/-- C7 counterexample: the two integer lists `["*"]` and `["*"]` have
pairwise-disjoint (indeed empty) sets of non-wildcard column names, yet
consolidation fails with the defaults conflict instead of succeeding. -/
theorem c7_counterexample :
    (nonWildcards ["*"] ++ nonWildcards ["*"] ++ nonWildcards [] ++
      nonWildcards []).Nodup ∧
    consolidate_types (some ["*"]) (some ["*"]) none none =
      Except.error CErr.intDefaultsConflict :=
  ⟨by decide, by rfl⟩

/-- C7 amended: when additionally no wildcard conflict is present (not
both integer lists and not both float lists contain a wildcard) and the
non-wildcard names are pairwise distinct across and within lists (repeats
inside the i32 list excepted, as they are idempotent), consolidation
succeeds and the override map contains exactly the non-wildcard names,
each at the type of its list; when all four lists are empty or absent the
map is empty and the defaults are the built-in Int64 and Float32. -/
theorem c7_amended_disjoint_names_ok (i32 i64 f32 f64 : Option (List String))
    (hw1 : ¬(containsWildcard (i32.getD []) = true ∧
             containsWildcard (i64.getD []) = true))
    (hw2 : ¬(containsWildcard (f32.getD []) = true ∧
             containsWildcard (f64.getD []) = true))
    (hnd : ((nonWildcards (i32.getD [])).dedup ++ nonWildcards (i64.getD []) ++
        nonWildcards (f32.getD []) ++ nonWildcards (f64.getD [])).Nodup) :
    ∃ m dint dfloat, consolidate_types i32 i64 f32 f64 =
        Except.ok (m, dint, dfloat) ∧
      (∀ (name : String) (ty : DataType), ovLookup m name = some ty ↔
        ((name ∈ nonWildcards (i32.getD []) ∧ ty = DataType.int32) ∨
         (name ∈ nonWildcards (i64.getD []) ∧ ty = DataType.int64) ∨
         (name ∈ nonWildcards (f32.getD []) ∧ ty = DataType.float32) ∨
         (name ∈ nonWildcards (f64.getD []) ∧ ty = DataType.float64))) ∧
      (i32.getD [] = [] → i64.getD [] = [] → f32.getD [] = [] → f64.getD [] = [] →
        m = [] ∧ dint = DEFAULT_INT_TYPE ∧ dfloat = DEFAULT_FLOAT_TYPE) := by
  classical
  by_cases hall : i32.isNone = true ∧ i64.isNone = true ∧ f32.isNone = true ∧
      f64.isNone = true
  · obtain ⟨g1, g2, g3, g4⟩ := hall
    have e1 : i32.getD [] = [] := by cases i32 with | none => rfl | some l => simp at g1
    have e2 : i64.getD [] = [] := by cases i64 with | none => rfl | some l => simp at g2
    have e3 : f32.getD [] = [] := by cases f32 with | none => rfl | some l => simp at g3
    have e4 : f64.getD [] = [] := by cases f64 with | none => rfl | some l => simp at g4
    refine ⟨[], DEFAULT_INT_TYPE, DEFAULT_FLOAT_TYPE, ?_, ?_, ?_⟩
    · unfold consolidate_types
      rw [if_pos ⟨g1, g2, g3, g4⟩]
    · intro name ty
      constructor
      · intro h
        exact absurd h (by simp [ovLookup])
      · rintro (⟨hm, -⟩ | ⟨hm, -⟩ | ⟨hm, -⟩ | ⟨hm, -⟩) <;>
          simp [e1, e2, e3, e4, nonWildcards] at hm
    · intro _ _ _ _
      exact ⟨rfl, rfl, rfl⟩
  · -- decompose the distinctness hypothesis
    have hAiff : ∀ x, x ∈ (nonWildcards (i32.getD [])).dedup ↔
        x ∈ nonWildcards (i32.getD []) := fun x => List.mem_dedup
    rw [List.nodup_append, List.nodup_append, List.nodup_append,
      List.disjoint_append_left, List.disjoint_append_left,
      List.disjoint_append_left] at hnd
    obtain ⟨⟨⟨hAd, hndB, dAB⟩, hndC, dAC, dBC⟩, hndD, ⟨dAD, dBD⟩, dCD⟩ := hnd
    unfold consolidate_types
    rw [if_neg hall]
    dsimp only []
    rw [if_neg hw1, if_neg hw2]
    rcases hl32 : loop_i32 (i32.getD []) [] DEFAULT_INT_TYPE with ⟨m1, dint1⟩
    dsimp only []
    have hm1 : ∀ x, ovLookup m1 x =
        if x ∈ nonWildcards (i32.getD []) then some DataType.int32 else none := by
      intro x
      have h := loop_i32_lookup (i32.getD []) [] DEFAULT_INT_TYPE x
      rw [hl32] at h
      exact h
    have hdisjB : ∀ x ∈ nonWildcards (i64.getD []), ovLookup m1 x = none := by
      intro x hx
      rw [hm1, if_neg (fun hA => dAB ((hAiff x).mpr hA) hx)]
    obtain ⟨m2, dint2, hok2, hch2⟩ := loop_strict_ok_of DataType.int64 (i64.getD [])
      m1 dint1 hndB hdisjB
    rw [loop_i64_eq_strict, hok2]
    dsimp only []
    have hdisjC : ∀ x ∈ nonWildcards (f32.getD []), ovLookup m2 x = none := by
      intro x hx
      rw [hch2, if_neg (fun hB => dBC hB hx), hm1,
        if_neg (fun hA => dAC ((hAiff x).mpr hA) hx)]
    obtain ⟨m3, dfloat3, hok3, hch3⟩ := loop_strict_ok_of DataType.float32
      (f32.getD []) m2 DEFAULT_FLOAT_TYPE hndC hdisjC
    rw [loop_f32_eq_strict, hok3]
    dsimp only []
    have hdisjD : ∀ x ∈ nonWildcards (f64.getD []), ovLookup m3 x = none := by
      intro x hx
      rw [hch3, if_neg (fun hC => dCD hC hx), hch2, if_neg (fun hB => dBD hB hx), hm1,
        if_neg (fun hA => dAD ((hAiff x).mpr hA) hx)]
    obtain ⟨m4, dfloat4, hok4, hch4⟩ := loop_strict_ok_of DataType.float64
      (f64.getD []) m3 dfloat3 hndD hdisjD
    rw [loop_f64_eq_strict, hok4]
    refine ⟨m4, dint2, dfloat4, rfl, ?_, ?_⟩
    · intro name ty
      rw [hch4, hch3, hch2, hm1]
      constructor
      · intro h
        by_cases hD : name ∈ nonWildcards (f64.getD [])
        · rw [if_pos hD] at h
          exact Or.inr (Or.inr (Or.inr ⟨hD, (Option.some.injEq _ _ ▸ h : _ = ty).symm⟩))
        · rw [if_neg hD] at h
          by_cases hC : name ∈ nonWildcards (f32.getD [])
          · rw [if_pos hC] at h
            exact Or.inr (Or.inr (Or.inl ⟨hC, ((Option.some.injEq _ _ ▸ h : _ = ty)).symm⟩))
          · rw [if_neg hC] at h
            by_cases hB : name ∈ nonWildcards (i64.getD [])
            · rw [if_pos hB] at h
              exact Or.inr (Or.inl ⟨hB, ((Option.some.injEq _ _ ▸ h : _ = ty)).symm⟩)
            · rw [if_neg hB] at h
              by_cases hA : name ∈ nonWildcards (i32.getD [])
              · rw [if_pos hA] at h
                exact Or.inl ⟨hA, ((Option.some.injEq _ _ ▸ h : _ = ty)).symm⟩
              · rw [if_neg hA] at h
                exact absurd h (by simp)
      · rintro (⟨hm, rfl⟩ | ⟨hm, rfl⟩ | ⟨hm, rfl⟩ | ⟨hm, rfl⟩)
        · rw [if_neg (fun hD => dAD ((hAiff name).mpr hm) hD),
            if_neg (fun hC => dAC ((hAiff name).mpr hm) hC),
            if_neg (fun hB => dAB ((hAiff name).mpr hm) hB), if_pos hm]
        · rw [if_neg (fun hD => dBD hm hD), if_neg (fun hC => dBC hm hC), if_pos hm]
        · rw [if_neg (fun hD => dCD hm hD), if_pos hm]
        · rw [if_pos hm]
    · intro e1 e2 e3 e4
      rw [e1] at hl32
      rw [e2] at hok2
      rw [e3] at hok3
      rw [e4] at hok4
      unfold loop_i32 at hl32
      unfold loop_strict at hok2 hok3 hok4
      rw [Prod.mk.injEq] at hl32
      rw [Except.ok.injEq, Prod.mk.injEq] at hok2 hok3 hok4
      obtain ⟨hm1e, hd1e⟩ := hl32
      obtain ⟨hm2e, hd2e⟩ := hok2
      obtain ⟨hm3e, hd3e⟩ := hok3
      obtain ⟨hm4e, hd4e⟩ := hok4
      refine ⟨?_, ?_, ?_⟩
      · rw [← hm4e, ← hm3e, ← hm2e, ← hm1e]
      · rw [← hd2e, ← hd1e]
      · rw [← hd4e, ← hd3e]

/-- C7 amended witness at concrete disjoint directive lists. -/
theorem c7_amended_witness :
    ¬(containsWildcard ((some ["a"] : Option (List String)).getD []) = true ∧
      containsWildcard ((some ["b", "*"] : Option (List String)).getD []) = true) ∧
    ¬(containsWildcard ((none : Option (List String)).getD []) = true ∧
      containsWildcard ((some ["c"] : Option (List String)).getD []) = true) ∧
    (∃ m dint dfloat, consolidate_types (some ["a"]) (some ["b", "*"]) none
        (some ["c"]) = Except.ok (m, dint, dfloat) ∧
      (∀ (name : String) (ty : DataType), ovLookup m name = some ty ↔
        ((name ∈ nonWildcards ((some ["a"] : Option (List String)).getD []) ∧
            ty = DataType.int32) ∨
         (name ∈ nonWildcards ((some ["b", "*"] : Option (List String)).getD []) ∧
            ty = DataType.int64) ∨
         (name ∈ nonWildcards ((none : Option (List String)).getD []) ∧
            ty = DataType.float32) ∨
         (name ∈ nonWildcards ((some ["c"] : Option (List String)).getD []) ∧
            ty = DataType.float64))) ∧
      ((some ["a"] : Option (List String)).getD [] = [] →
        (some ["b", "*"] : Option (List String)).getD [] = [] →
        (none : Option (List String)).getD [] = [] →
        (some ["c"] : Option (List String)).getD [] = [] →
        m = [] ∧ dint = DEFAULT_INT_TYPE ∧ dfloat = DEFAULT_FLOAT_TYPE)) :=
  ⟨by decide, by decide,
   c7_amended_disjoint_names_ok (some ["a"]) (some ["b", "*"]) none (some ["c"])
     (by decide) (by decide) (by decide)⟩

/-- C5: for every source (plain or gzip-compressed, as chosen by the
filename) and every N > 0, reading N bytes from a freshly opened
`RewindableReader`, rewinding, and then reading from the start yields
byte-for-byte the same sequence as reading from a freshly opened reader on
the same file; indeed the rewound reader is equal to the fresh one. -/
theorem c5_rewind_rereads_from_start (D : List Nat → List Nat) (filename : List Char)
    (contents : List Nat) (N : Nat) (hN : 0 < N) :
    RewindableReader.rewind
        (RewindableReader.readBytes D (RewindableReader.openReader filename contents) N).2 =
      RewindableReader.openReader filename contents ∧
    ∀ M, (RewindableReader.readBytes D
        (RewindableReader.rewind
          (RewindableReader.readBytes D
            (RewindableReader.openReader filename contents) N).2) M).1 =
      (RewindableReader.readBytes D (RewindableReader.openReader filename contents) M).1 := by
  unfold RewindableReader.openReader
  by_cases h : (String.mk filename).endsWith ".gz" <;>
    simp [h, RewindableReader.readBytes, RewindableReader.rewind]

/-- C5 witness at a concrete compressed source. -/
theorem c5_witness :
    0 < 3 ∧
    RewindableReader.rewind
        (RewindableReader.readBytes id
          (RewindableReader.openReader "a.csv.gz".toList [1, 2, 3, 4, 5]) 3).2 =
      RewindableReader.openReader "a.csv.gz".toList [1, 2, 3, 4, 5] ∧
    (RewindableReader.readBytes id
        (RewindableReader.rewind
          (RewindableReader.readBytes id
            (RewindableReader.openReader "a.csv.gz".toList [1, 2, 3, 4, 5]) 3).2) 5).1 =
      (RewindableReader.readBytes id
        (RewindableReader.openReader "a.csv.gz".toList [1, 2, 3, 4, 5]) 5).1 :=
  ⟨by decide,
   (c5_rewind_rereads_from_start id "a.csv.gz".toList [1, 2, 3, 4, 5] 3 (by decide)).1,
   (c5_rewind_rereads_from_start id "a.csv.gz".toList [1, 2, 3, 4, 5] 3 (by decide)).2 5⟩

/-- C6: `apply_schema_overrides` never fails and maps each field
pointwise: an override by name wins; otherwise an inferred generic Int64
becomes the default integer type and an inferred generic Float64 becomes
the default float type; every other field passes through unchanged.  Name,
nullability and position are preserved, and the field count is
unchanged. -/
theorem c6_apply_schema_overrides_pointwise (schema : Schema) (overrides : OvMap)
    (default_int_type default_float_type : DataType) :
    ∃ s', apply_schema_overrides schema overrides default_int_type default_float_type =
        Except.ok s' ∧
      s'.fields.length = schema.fields.length ∧
      ∀ (i : Nat) (f : Field), schema.fields[i]? = some f →
        ∃ g : Field, s'.fields[i]? = some g ∧
          g.name = f.name ∧ g.nullable = f.nullable ∧
          (∀ t, ovLookup overrides f.name = some t → g.dataType = t) ∧
          (ovLookup overrides f.name = none →
            (f.dataType = DataType.int64 → g.dataType = default_int_type) ∧
            (f.dataType = DataType.float64 → g.dataType = default_float_type) ∧
            (f.dataType ≠ DataType.int64 → f.dataType ≠ DataType.float64 →
              g.dataType = f.dataType)) := by
  refine ⟨_, rfl, by simp [apply_schema_overrides], ?_⟩
  intro i f hf
  refine ⟨rewriteField overrides default_int_type default_float_type f, ?_, ?_⟩
  · simp [apply_schema_overrides, List.getElem?_map, hf]
  · obtain ⟨h1, h2, h3, h4⟩ := rewriteField_spec overrides default_int_type default_float_type f
    exact ⟨h1, h2, h3, h4⟩

/-- C6 witness at a concrete schema exercising all three cases. -/
theorem c6_witness :
    ∃ s', apply_schema_overrides
        ⟨[⟨"a", DataType.int64, true⟩, ⟨"b", DataType.float64, false⟩,
          ⟨"c", DataType.utf8, true⟩]⟩
        [("a", DataType.int32)] DataType.int64 DataType.float32 = Except.ok s' ∧
      s'.fields.length = 3 ∧
      ∀ (i : Nat) (f : Field), ([⟨"a", DataType.int64, true⟩, ⟨"b", DataType.float64, false⟩,
          (⟨"c", DataType.utf8, true⟩ : Field)] : List Field)[i]? = some f →
        ∃ g : Field, s'.fields[i]? = some g ∧
          g.name = f.name ∧ g.nullable = f.nullable ∧
          (∀ t, ovLookup [("a", DataType.int32)] f.name = some t → g.dataType = t) ∧
          (ovLookup [("a", DataType.int32)] f.name = none →
            (f.dataType = DataType.int64 → g.dataType = DataType.int64) ∧
            (f.dataType = DataType.float64 → g.dataType = DataType.float32) ∧
            (f.dataType ≠ DataType.int64 → f.dataType ≠ DataType.float64 →
              g.dataType = f.dataType)) :=
  c6_apply_schema_overrides_pointwise
    ⟨[⟨"a", DataType.int64, true⟩, ⟨"b", DataType.float64, false⟩,
      ⟨"c", DataType.utf8, true⟩]⟩
    [("a", DataType.int32)] DataType.int64 DataType.float32

/-- C2: in a conversion run (final path initially absent, temp path
distinct from it as guaranteed by the `.tmp.` marker, sink created
exclusively) that fails after bytes were written but before commit, no
file exists at the final path, and after the sink is dropped no file
exists at the temp path either; moreover a failed sync leaves no file at
the final path, and only a successful `flush_and_rename` produces one. -/
theorem c2_no_partial_output (fs0 : FS) (tmp final : FsPath) (tf : TempFile) (fs1 : FS)
    (buf : List Nat) (hne : tmp ≠ final) (hfin : FS.lookup fs0 final = none)
    (hcr : TempFile.create_new tmp fs0 = Except.ok (tf, fs1)) :
    FS.lookup (tf.write buf fs1) final = none ∧
    FS.lookup (tf.dropCleanup (tf.write buf fs1)) final = none ∧
    FS.lookup (tf.dropCleanup (tf.write buf fs1)) tmp = none ∧
    FS.lookup (tf.flush_and_rename false final (tf.write buf fs1)).1 final = none ∧
    (tf.flush_and_rename false final (tf.write buf fs1)).2 = false ∧
    FS.lookup (tf.flush_and_rename true final (tf.write buf fs1)).1 final =
      some (Entry.file buf) ∧
    (tf.flush_and_rename true final (tf.write buf fs1)).2 = true := by
  unfold TempFile.create_new at hcr
  split at hcr
  · exact absurd hcr (by simp)
  · rename_i hex
    rw [Except.ok.injEq, Prod.mk.injEq] at hcr
    obtain ⟨htf, hfs1⟩ := hcr
    subst htf
    subst hfs1
    have hlt : FS.lookup (FS.setEntry fs0 tmp (Entry.file [])) tmp = some (Entry.file []) := by
      simp [FS.lookup_setEntry]
    have hw : (TempFile.mk tmp).write buf (FS.setEntry fs0 tmp (Entry.file [])) =
        FS.setEntry (FS.setEntry fs0 tmp (Entry.file [])) tmp (Entry.file buf) := by
      unfold TempFile.write
      rw [hlt]
      simp
    rw [hw]
    have hlf : ∀ e, FS.lookup (FS.setEntry (FS.setEntry fs0 tmp (Entry.file [])) tmp e)
        final = none := by
      intro e
      rw [FS.lookup_setEntry, if_neg hne, FS.lookup_setEntry, if_neg hne]
      exact hfin
    have hlt2 : FS.lookup (FS.setEntry (FS.setEntry fs0 tmp (Entry.file [])) tmp
        (Entry.file buf)) tmp = some (Entry.file buf) := by
      simp [FS.lookup_setEntry]
    refine ⟨hlf _, ?_, ?_, ?_, ?_, ?_, ?_⟩
    · unfold TempFile.dropCleanup
      rw [FS.lookup_remove, if_neg (Ne.symm hne)]
      exact hlf _
    · unfold TempFile.dropCleanup
      simp [FS.lookup_remove]
    · unfold TempFile.flush_and_rename TempFile.dropCleanup
      simp only [Bool.false_eq_true, if_false]
      rw [FS.lookup_remove, if_neg (Ne.symm hne)]
      exact hlf _
    · unfold TempFile.flush_and_rename
      simp
    · unfold TempFile.flush_and_rename TempFile.dropCleanup FS.rename
      rw [hlt2]
      simp only [if_true]
      rw [FS.lookup_remove, if_neg (Ne.symm hne)]
      simp [FS.lookup]
    · unfold TempFile.flush_and_rename
      rw [hlt2]
      simp

/-- C2 witness at a concrete sink. -/
theorem c2_witness :
    (⟨[], ['t']⟩ : FsPath) ≠ ⟨[], ['f']⟩ ∧
    FS.lookup ([] : FS) ⟨[], ['f']⟩ = none ∧
    TempFile.create_new ⟨[], ['t']⟩ ([] : FS) =
      Except.ok (⟨⟨[], ['t']⟩⟩, [(⟨[], ['t']⟩, Entry.file [])]) ∧
    FS.lookup ((TempFile.mk ⟨[], ['t']⟩).write [9] [(⟨[], ['t']⟩, Entry.file [])])
      ⟨[], ['f']⟩ = none ∧
    FS.lookup ((TempFile.mk ⟨[], ['t']⟩).dropCleanup
      ((TempFile.mk ⟨[], ['t']⟩).write [9] [(⟨[], ['t']⟩, Entry.file [])]))
      ⟨[], ['t']⟩ = none :=
  ⟨by decide, by decide, by rfl,
   (c2_no_partial_output [] ⟨[], ['t']⟩ ⟨[], ['f']⟩ ⟨⟨[], ['t']⟩⟩
      [(⟨[], ['t']⟩, Entry.file [])] [9] (by decide) (by decide) (by rfl)).1,
   (c2_no_partial_output [] ⟨[], ['t']⟩ ⟨[], ['f']⟩ ⟨⟨[], ['t']⟩⟩
      [(⟨[], ['t']⟩, Entry.file [])] [9] (by decide) (by decide) (by rfl)).2.2.1⟩

/-- C8 counterexample: a sink committed to a final path equal to its temp
path.  `flush_and_rename` reports success, yet the drop-time cleanup that
runs when the consumed receiver goes out of scope deletes the file at the
temp path — the claim that cleanup never fires (performs no deletion)
after a successful commit is false for this sink. -/
theorem c8_counterexample :
    (TempFile.flush_and_rename ⟨⟨[], ['t']⟩⟩ true ⟨[], ['t']⟩
        [(⟨[], ['t']⟩, Entry.file [7])]).2 = true ∧
    FS.lookup (TempFile.flush_and_rename ⟨⟨[], ['t']⟩⟩ true ⟨[], ['t']⟩
        [(⟨[], ['t']⟩, Entry.file [7])]).1 ⟨[], ['t']⟩ = none := by decide

/-- C8 amended: for every sink whose commit target differs from its temp
path (as is always the case in `process`, where the temp basename carries
the `.tmp.` marker), after a successful `flush_and_rename` the committed
file is present at the final path and a subsequent drop of the sink
deletes nothing — the filesystem is unchanged because the temp path no
longer exists. -/
theorem c8_amended_commit_disarms (tf : TempFile) (final : FsPath) (fs : FS)
    (hne : tf.tmp_filename ≠ final)
    (hok : (tf.flush_and_rename true final fs).2 = true) :
    TempFile.dropCleanup tf (tf.flush_and_rename true final fs).1 =
      (tf.flush_and_rename true final fs).1 ∧
    FS.pathExists (tf.flush_and_rename true final fs).1 final = true := by
  unfold TempFile.flush_and_rename at hok ⊢
  cases hl : FS.lookup fs tf.tmp_filename with
  | none => rw [hl] at hok; simp at hok
  | some e =>
    refine ⟨?_, ?_⟩ <;>
      simp [TempFile.dropCleanup, FS.rename, hl, FS.remove_remove_self, FS.pathExists,
        FS.lookup_remove, Ne.symm hne, FS.lookup]

/-- C8 amended witness at a concrete sink with distinct temp and final
paths. -/
theorem c8_amended_witness :
    (⟨[], ['t']⟩ : FsPath) ≠ ⟨[], ['u']⟩ ∧
    (TempFile.flush_and_rename ⟨⟨[], ['t']⟩⟩ true ⟨[], ['u']⟩
        [(⟨[], ['t']⟩, Entry.file [7])]).2 = true ∧
    TempFile.dropCleanup ⟨⟨[], ['t']⟩⟩ (TempFile.flush_and_rename ⟨⟨[], ['t']⟩⟩ true
        ⟨[], ['u']⟩ [(⟨[], ['t']⟩, Entry.file [7])]).1 =
      (TempFile.flush_and_rename ⟨⟨[], ['t']⟩⟩ true ⟨[], ['u']⟩
        [(⟨[], ['t']⟩, Entry.file [7])]).1 ∧
    FS.pathExists (TempFile.flush_and_rename ⟨⟨[], ['t']⟩⟩ true ⟨[], ['u']⟩
        [(⟨[], ['t']⟩, Entry.file [7])]).1 ⟨[], ['u']⟩ = true :=
  ⟨by decide, by decide,
   (c8_amended_commit_disarms ⟨⟨[], ['t']⟩⟩ ⟨[], ['u']⟩
      [(⟨[], ['t']⟩, Entry.file [7])] (by decide) (by decide)).1,
   (c8_amended_commit_disarms ⟨⟨[], ['t']⟩⟩ ⟨[], ['u']⟩
      [(⟨[], ['t']⟩, Entry.file [7])] (by decide) (by decide)).2⟩

/-- C4: if both integer directive lists contain a wildcard spelling, or
both float directive lists do, `consolidate_types` fails with one of the
two defaults-conflict errors regardless of the other contents, and `main`
aborts with the filesystem untouched — no file is processed. -/
theorem c4_wildcard_conflict_fails (o : Oracle) (args : Args) (files : List FsPath)
    (fs : FS) (i32 i64 f32 f64 : Option (List String))
    (h : (containsWildcard (i32.getD []) = true ∧ containsWildcard (i64.getD []) = true) ∨
         (containsWildcard (f32.getD []) = true ∧ containsWildcard (f64.getD []) = true)) :
    (∃ e, consolidate_types i32 i64 f32 f64 = Except.error e ∧
       (e = CErr.intDefaultsConflict ∨ e = CErr.floatDefaultsConflict)) ∧
    mainRun o args i32 i64 f32 f64 files fs = (fs, false) := by
  have hnn : ¬(i32.isNone ∧ i64.isNone ∧ f32.isNone ∧ f64.isNone) := by
    rintro ⟨h1, h2, h3, h4⟩
    rcases h with ⟨ha, _⟩ | ⟨ha, _⟩
    · cases i32 with
      | none => exact absurd ha (by decide)
      | some l => simp at h1
    · cases f32 with
      | none => exact absurd ha (by decide)
      | some l => simp at h3
  have hmain : ∃ e, consolidate_types i32 i64 f32 f64 = Except.error e ∧
      (e = CErr.intDefaultsConflict ∨ e = CErr.floatDefaultsConflict) := by
    unfold consolidate_types
    rw [if_neg hnn]
    by_cases hi : containsWildcard (i32.getD []) = true ∧ containsWildcard (i64.getD []) = true
    · exact ⟨CErr.intDefaultsConflict, by simp [hi.1, hi.2], Or.inl rfl⟩
    · rcases h with hint | ⟨ha, hb⟩
      · exact absurd hint hi
      · refine ⟨CErr.floatDefaultsConflict, ?_, Or.inr rfl⟩
        rw [if_neg ?_, if_pos ⟨ha, hb⟩]
        intro hc
        exact hi ⟨hc.1, hc.2⟩
  refine ⟨hmain, ?_⟩
  obtain ⟨e, he, _⟩ := hmain
  unfold mainRun
  rw [he]

/-- C4 witness: the wildcard in both integer lists. -/
theorem c4_witness :
    ((containsWildcard ((some ["*"] : Option (List String)).getD []) = true ∧
        containsWildcard ((some ["x", "__all__"] : Option (List String)).getD []) = true) ∨
      (containsWildcard ((none : Option (List String)).getD []) = true ∧
        containsWildcard ((none : Option (List String)).getD []) = true)) ∧
    (∃ e, consolidate_types (some ["*"]) (some ["x", "__all__"]) none none =
        Except.error e ∧
      (e = CErr.intDefaultsConflict ∨ e = CErr.floatDefaultsConflict)) ∧
    mainRun ⟨true, true, true⟩ ⟨false, false⟩ (some ["*"]) (some ["x", "__all__"]) none none
      [⟨[], ['a']⟩] [] = ([], false) :=
  ⟨Or.inl ⟨by decide, by decide⟩,
   c4_wildcard_conflict_fails ⟨true, true, true⟩ ⟨false, false⟩ [⟨[], ['a']⟩] []
     (some ["*"]) (some ["x", "__all__"]) none none
     (Or.inl ⟨by decide, by decide⟩)⟩

/-- C10: in print-schema mode `process` performs no filesystem mutation —
no temp file, no output file, and no removal of the input even with `--rm`
— and whenever the input is a regular file and inference succeeds it
prints the schema and returns `Ok` without ever opening a sink. -/
theorem c10_print_schema_pure (o : Oracle) (args : Args) (filename : FsPath) (fs : FS)
    (hp : args.print_schema = true) :
    (process o args filename fs).fs = fs ∧
    Ev.openSink ∉ (process o args filename fs).trace ∧
    Ev.commit ∉ (process o args filename fs).trace ∧
    (FS.isFile fs filename = true → o.inferOk = true →
      (process o args filename fs).ok = true ∧
      Ev.printOnly ∈ (process o args filename fs).trace) := by
  by_cases h1 : FS.isFile fs filename = true
  · by_cases h2 : o.inferOk = true
    · simp [process, h1, h2, hp]
    · simp [process, h1, h2]
  · simp [process, h1]

/-- C10 witness at a concrete file and filesystem. -/
theorem c10_witness :
    (⟨true, false⟩ : Args).print_schema = true ∧
    (process ⟨true, true, true⟩ ⟨true, true⟩ ⟨['d'], "a.csv".toList⟩
        [(⟨['d'], "a.csv".toList⟩, Entry.file [1])]).fs =
      [(⟨['d'], "a.csv".toList⟩, Entry.file [1])] ∧
    Ev.openSink ∉ (process ⟨true, true, true⟩ ⟨true, true⟩ ⟨['d'], "a.csv".toList⟩
        [(⟨['d'], "a.csv".toList⟩, Entry.file [1])]).trace ∧
    Ev.commit ∉ (process ⟨true, true, true⟩ ⟨true, true⟩ ⟨['d'], "a.csv".toList⟩
        [(⟨['d'], "a.csv".toList⟩, Entry.file [1])]).trace ∧
    (FS.isFile [(⟨['d'], "a.csv".toList⟩, Entry.file [1])] ⟨['d'], "a.csv".toList⟩ = true →
      (⟨true, true, true⟩ : Oracle).inferOk = true →
      (process ⟨true, true, true⟩ ⟨true, true⟩ ⟨['d'], "a.csv".toList⟩
          [(⟨['d'], "a.csv".toList⟩, Entry.file [1])]).ok = true ∧
      Ev.printOnly ∈ (process ⟨true, true, true⟩ ⟨true, true⟩ ⟨['d'], "a.csv".toList⟩
          [(⟨['d'], "a.csv".toList⟩, Entry.file [1])]).trace) :=
  ⟨rfl,
   c10_print_schema_pure ⟨true, true, true⟩ ⟨true, true⟩ ⟨['d'], "a.csv".toList⟩
     [(⟨['d'], "a.csv".toList⟩, Entry.file [1])] rfl⟩

/-- C1 counterexample: a regular file whose name carries no recognized
suffix (`a.txt`).  `process` performs schema inference on it (the trace
reaches `inferSchema`) even though the recognized-suffix guard fails — so
schema inference is not gated on all four entry guards. -/
theorem c1_counterexample :
    Ev.inferSchema ∈ (process ⟨true, true, true⟩ ⟨false, false⟩
        ⟨['d'], "a.txt".toList⟩ [(⟨['d'], "a.txt".toList⟩, Entry.file [1])]).trace ∧
    stripFormatSuffix "a.txt".toList = none := by decide

/-- C1 amended: only the first entry guard (input exists and is a regular
file) is evaluated before schema inference; the remaining three guards
(recognized suffix, final path absent, temp path absent) are evaluated
after inference but before the sink is opened, so `openSink` is reached
only with all four guards passed. -/
theorem c1_amended_guard_placement (o : Oracle) (args : Args) (filename : FsPath)
    (fs : FS) :
    (Ev.inferSchema ∈ (process o args filename fs).trace →
       FS.isFile fs filename = true) ∧
    (Ev.openSink ∈ (process o args filename fs).trace →
       FS.isFile fs filename = true ∧
       ∃ b, stripFormatSuffix filename.base = some b ∧
         FS.pathExists fs ⟨filename.dir, b ++ ".parquet".toList⟩ = false ∧
         FS.pathExists fs ⟨filename.dir, ".tmp.".toList ++ (b ++ ".parquet".toList)⟩ =
           false) := by
  by_cases h1 : FS.isFile fs filename = true
  · by_cases h2 : o.inferOk = true
    · by_cases h3 : args.print_schema = true
      · simp [process, h1, h2, h3]
      · cases hs : stripFormatSuffix filename.base with
        | none => simp [process, h1, h2, h3, hs]
        | some b =>
          by_cases h4 : FS.pathExists fs ⟨filename.dir, b ++ ".parquet".toList⟩ = true
          · have h4' := h4
            simp only [String.toList] at h4'
            simp [process, h1, h2, h3, hs, h4']
          · by_cases h5 : FS.pathExists fs
                ⟨filename.dir, ".tmp.".toList ++ (b ++ ".parquet".toList)⟩ = true
            · have h4' := h4
              have h5' := h5
              simp only [String.toList, List.cons_append, List.nil_append] at h4' h5'
              simp [process, h1, h2, h3, hs, h4', h5']
            · exact ⟨fun _ => h1,
                fun _ => ⟨h1, ⟨b, rfl, by simpa using h4, by simpa using h5⟩⟩⟩
    · simp [process, h1, h2]
  · simp [process, h1]

/-- Inversion of the commit path of `process`: if the trace reaches
`Commit`, every guard and every collaborator succeeded, and the final
filesystem is the initial one with the converted file added at the final
path (and, with `--rm`, the input removed). -/
theorem process_commit_inv (o : Oracle) (args : Args) (filename : FsPath) (fs : FS)
    (hc : Ev.commit ∈ (process o args filename fs).trace) :
    ∃ b, FS.isFile fs filename = true ∧ o.inferOk = true ∧
      args.print_schema = false ∧ stripFormatSuffix filename.base = some b ∧
      FS.pathExists fs ⟨filename.dir, b ++ ".parquet".toList⟩ = false ∧
      FS.pathExists fs ⟨filename.dir, ".tmp.".toList ++ (b ++ ".parquet".toList)⟩ =
        false ∧
      (process o args filename fs).fs =
        (if args.rm then
          FS.remove ((⟨filename.dir, b ++ ".parquet".toList⟩, Entry.file []) :: fs)
            filename
        else (⟨filename.dir, b ++ ".parquet".toList⟩, Entry.file []) :: fs) := by
  by_cases h1 : FS.isFile fs filename = true
  case neg => simp [process, h1] at hc
  by_cases h2 : o.inferOk = true
  case neg => simp [process, h1, h2] at hc
  by_cases h3 : args.print_schema = true
  case pos => simp [process, h1, h2, h3] at hc
  cases hs : stripFormatSuffix filename.base with
  | none => simp [process, h1, h2, h3, hs] at hc
  | some b =>
    by_cases h4 : FS.pathExists fs ⟨filename.dir, b ++ ".parquet".toList⟩ = true
    case pos =>
      have h4' := h4
      simp only [String.toList, List.cons_append, List.nil_append] at h4'
      simp [process, h1, h2, h3, hs, h4'] at hc
    by_cases h5 : FS.pathExists fs
        ⟨filename.dir, ".tmp.".toList ++ (b ++ ".parquet".toList)⟩ = true
    case pos =>
      have h4' := h4
      have h5' := h5
      simp only [String.toList, List.cons_append, List.nil_append] at h4' h5'
      simp [process, h1, h2, h3, hs, h4', h5'] at hc
    have hlu : FS.lookup fs ⟨filename.dir, ".tmp.".toList ++ (b ++ ".parquet".toList)⟩ =
        none := by
      cases hl : FS.lookup fs
          ⟨filename.dir, ".tmp.".toList ++ (b ++ ".parquet".toList)⟩ with
      | some e => exact absurd (by unfold FS.pathExists; rw [hl]; rfl) h5
      | none => rfl
    have hrm0 : FS.remove fs ⟨filename.dir, ".tmp.".toList ++ (b ++ ".parquet".toList)⟩ =
        fs := FS.remove_of_lookup_none fs _ hlu
    have hcr : TempFile.create_new
        ⟨filename.dir, ".tmp.".toList ++ (b ++ ".parquet".toList)⟩ fs =
        Except.ok (⟨⟨filename.dir, ".tmp.".toList ++ (b ++ ".parquet".toList)⟩⟩,
          (⟨filename.dir, ".tmp.".toList ++ (b ++ ".parquet".toList)⟩,
            Entry.file []) :: fs) := by
      unfold TempFile.create_new
      rw [if_neg h5]
      unfold FS.setEntry
      rw [hrm0]
    have hne : (⟨filename.dir, b ++ ".parquet".toList⟩ : FsPath) ≠
        ⟨filename.dir, ".tmp.".toList ++ (b ++ ".parquet".toList)⟩ := by
      intro h
      exact parquet_ne_tmp b (congrArg FsPath.base h)
    by_cases h6 : o.streamOk = true
    case neg =>
      have h4' := h4
      have h5' := h5
      have hcr' := hcr
      simp only [String.toList, List.cons_append, List.nil_append] at h4' h5' hcr'
      simp [process, h1, h2, h3, hs, h4', h5', hcr', h6] at hc
    by_cases h7 : o.syncOk = true
    case neg =>
      have h4' := h4
      have h5' := h5
      have hcr' := hcr
      simp only [String.toList, List.cons_append, List.nil_append] at h4' h5' hcr'
      simp [process, TempFile.flush_and_rename, h1, h2, h3, hs, h4', h5', hcr', h6,
        h7] at hc
    have hl1 : FS.lookup ((⟨filename.dir, ".tmp.".toList ++ (b ++ ".parquet".toList)⟩,
        Entry.file []) :: fs)
        ⟨filename.dir, ".tmp.".toList ++ (b ++ ".parquet".toList)⟩ =
        some (Entry.file []) := by
      unfold FS.lookup
      rw [if_pos rfl]
    have hrm1 : FS.remove ((⟨filename.dir, ".tmp.".toList ++ (b ++ ".parquet".toList)⟩,
        Entry.file []) :: fs)
        ⟨filename.dir, ".tmp.".toList ++ (b ++ ".parquet".toList)⟩ = fs := by
      unfold FS.remove
      rw [if_pos rfl, hrm0]
    have hfl : TempFile.flush_and_rename
        ⟨⟨filename.dir, ".tmp.".toList ++ (b ++ ".parquet".toList)⟩⟩ o.syncOk
        ⟨filename.dir, b ++ ".parquet".toList⟩
        ((⟨filename.dir, ".tmp.".toList ++ (b ++ ".parquet".toList)⟩,
          Entry.file []) :: fs) =
        ((⟨filename.dir, b ++ ".parquet".toList⟩, Entry.file []) :: fs, true) := by
      rw [h7]
      unfold TempFile.flush_and_rename
      rw [if_pos rfl, hl1]
      dsimp only []
      unfold FS.rename
      rw [hl1]
      dsimp only []
      unfold TempFile.dropCleanup
      dsimp only []
      rw [hrm1]
      unfold FS.remove
      rw [if_neg hne, hrm0]
    refine ⟨b, h1, h2, by simpa using h3, rfl, by simpa using h4, by simpa using h5, ?_⟩
    have hres : process o args filename fs =
        { trace := [Ev.inferSchema, Ev.rewriteSchema, Ev.openSink, Ev.streamRows,
            Ev.commit],
          fs := if args.rm then
              FS.remove ((⟨filename.dir, b ++ ".parquet".toList⟩, Entry.file []) :: fs)
                filename
            else (⟨filename.dir, b ++ ".parquet".toList⟩, Entry.file []) :: fs,
          ok := true } := by
      unfold process
      rw [if_neg (not_not_intro h1), if_neg (not_not_intro h2), if_neg h3, hs]
      dsimp only []
      rw [if_neg h4, if_neg h5, hcr]
      dsimp only []
      rw [if_neg (not_not_intro h6), hfl]
      dsimp only []
      rw [if_pos rfl]
    rw [hres]

/-- C9: when the destination final path already exists at the start of a
conversion, `process` leaves the filesystem untouched (in particular, no
temp file is created), never opens the sink, and — whenever the run
actually reaches the guard (input is a regular file, inference succeeds,
not print mode) — returns `Ok` having skipped, so processing continues.
Consequently, re-running `process` on the same input after a committed
first run leaves the filesystem unchanged, opens no sink and returns `Ok`
with a skip. -/
theorem c9_final_exists_skips :
    (∀ (o : Oracle) (args : Args) (filename : FsPath) (fs : FS) (b : List Char),
       stripFormatSuffix filename.base = some b →
       FS.pathExists fs ⟨filename.dir, b ++ ".parquet".toList⟩ = true →
       (process o args filename fs).fs = fs ∧
       Ev.openSink ∉ (process o args filename fs).trace ∧
       (o.inferOk = true → args.print_schema = false → FS.isFile fs filename = true →
         (process o args filename fs).ok = true ∧
         Ev.skip ∈ (process o args filename fs).trace)) ∧
    (∀ (o : Oracle) (args : Args) (filename : FsPath) (fs : FS),
       Ev.commit ∈ (process o args filename fs).trace →
       (process o args filename ((process o args filename fs).fs)).fs =
         (process o args filename fs).fs ∧
       Ev.openSink ∉ (process o args filename ((process o args filename fs).fs)).trace ∧
       (process o args filename ((process o args filename fs).fs)).ok = true ∧
       Ev.skip ∈ (process o args filename ((process o args filename fs).fs)).trace) := by
  constructor
  · intro o args filename fs b hsf hex
    by_cases h1 : FS.isFile fs filename = true
    case neg => simp [process, h1]
    by_cases h2 : o.inferOk = true
    case neg => simp [process, h1, h2]
    by_cases h3 : args.print_schema = true
    case pos => simp [process, h1, h2, h3]
    have hex' := hex
    simp only [String.toList, List.cons_append, List.nil_append] at hex'
    simp [process, h1, h2, h3, hsf, hex']
  · intro o args filename fs hc
    obtain ⟨b, h1, h2, hp3, hsf, h4, h5, hfs⟩ := process_commit_inv o args filename fs hc
    rw [hfs]
    by_cases hrm : args.rm = true
    · rw [if_pos hrm]
      have hnin : FS.isFile
          (FS.remove ((⟨filename.dir, b ++ ".parquet".toList⟩, Entry.file []) :: fs)
            filename) filename = false := by
        unfold FS.isFile
        rw [FS.lookup_remove, if_pos rfl]
      have hnin' := hnin
      simp only [String.toList, List.cons_append, List.nil_append] at hnin'
      simp [process, hnin']
    · rw [if_neg hrm]
      have hne2 : (⟨filename.dir, b ++ ".parquet".toList⟩ : FsPath) ≠ filename := by
        intro h
        exact stripFormat_base_ne_parquet hsf (congrArg FsPath.base h).symm
      have hisf : FS.isFile
          ((⟨filename.dir, b ++ ".parquet".toList⟩, Entry.file []) :: fs) filename =
          true := by
        unfold FS.isFile at h1 ⊢
        unfold FS.lookup
        rw [if_neg hne2]
        exact h1
      have hpe : FS.pathExists
          ((⟨filename.dir, b ++ ".parquet".toList⟩, Entry.file []) :: fs)
          ⟨filename.dir, b ++ ".parquet".toList⟩ = true := by
        unfold FS.pathExists FS.lookup
        rw [if_pos rfl]
        rfl
      have hisf' := hisf
      have hpe' := hpe
      simp only [String.toList, List.cons_append, List.nil_append] at hisf' hpe'
      simp [process, hisf', h2, hp3, hsf, hpe']

/-- C9 witness: a concrete conversion whose output already exists, and a
concrete committed run followed by a re-run. -/
theorem c9_witness :
    ((process ⟨true, true, true⟩ ⟨false, false⟩ ⟨['d'], "a.csv".toList⟩
        [(⟨['d'], "a.csv".toList⟩, Entry.file [1]),
         (⟨['d'], "a.parquet".toList⟩, Entry.file [2])]).fs =
      [(⟨['d'], "a.csv".toList⟩, Entry.file [1]),
       (⟨['d'], "a.parquet".toList⟩, Entry.file [2])] ∧
     Ev.openSink ∉ (process ⟨true, true, true⟩ ⟨false, false⟩ ⟨['d'], "a.csv".toList⟩
        [(⟨['d'], "a.csv".toList⟩, Entry.file [1]),
         (⟨['d'], "a.parquet".toList⟩, Entry.file [2])]).trace ∧
     ((⟨true, true, true⟩ : Oracle).inferOk = true →
       (⟨false, false⟩ : Args).print_schema = false →
       FS.isFile [(⟨['d'], "a.csv".toList⟩, Entry.file [1]),
         (⟨['d'], "a.parquet".toList⟩, Entry.file [2])] ⟨['d'], "a.csv".toList⟩ = true →
       (process ⟨true, true, true⟩ ⟨false, false⟩ ⟨['d'], "a.csv".toList⟩
          [(⟨['d'], "a.csv".toList⟩, Entry.file [1]),
           (⟨['d'], "a.parquet".toList⟩, Entry.file [2])]).ok = true ∧
       Ev.skip ∈ (process ⟨true, true, true⟩ ⟨false, false⟩ ⟨['d'], "a.csv".toList⟩
          [(⟨['d'], "a.csv".toList⟩, Entry.file [1]),
           (⟨['d'], "a.parquet".toList⟩, Entry.file [2])]).trace)) ∧
    ((process ⟨true, true, true⟩ ⟨false, false⟩ ⟨['d'], "a.csv".toList⟩
        ((process ⟨true, true, true⟩ ⟨false, false⟩ ⟨['d'], "a.csv".toList⟩
          [(⟨['d'], "a.csv".toList⟩, Entry.file [1])]).fs)).fs =
      (process ⟨true, true, true⟩ ⟨false, false⟩ ⟨['d'], "a.csv".toList⟩
        [(⟨['d'], "a.csv".toList⟩, Entry.file [1])]).fs ∧
     Ev.openSink ∉ (process ⟨true, true, true⟩ ⟨false, false⟩ ⟨['d'], "a.csv".toList⟩
        ((process ⟨true, true, true⟩ ⟨false, false⟩ ⟨['d'], "a.csv".toList⟩
          [(⟨['d'], "a.csv".toList⟩, Entry.file [1])]).fs)).trace ∧
     (process ⟨true, true, true⟩ ⟨false, false⟩ ⟨['d'], "a.csv".toList⟩
        ((process ⟨true, true, true⟩ ⟨false, false⟩ ⟨['d'], "a.csv".toList⟩
          [(⟨['d'], "a.csv".toList⟩, Entry.file [1])]).fs)).ok = true ∧
     Ev.skip ∈ (process ⟨true, true, true⟩ ⟨false, false⟩ ⟨['d'], "a.csv".toList⟩
        ((process ⟨true, true, true⟩ ⟨false, false⟩ ⟨['d'], "a.csv".toList⟩
          [(⟨['d'], "a.csv".toList⟩, Entry.file [1])]).fs)).trace) :=
  ⟨c9_final_exists_skips.1 ⟨true, true, true⟩ ⟨false, false⟩ ⟨['d'], "a.csv".toList⟩
     [(⟨['d'], "a.csv".toList⟩, Entry.file [1]),
      (⟨['d'], "a.parquet".toList⟩, Entry.file [2])] "a".toList (by decide) (by decide),
   c9_final_exists_skips.2 ⟨true, true, true⟩ ⟨false, false⟩ ⟨['d'], "a.csv".toList⟩
     [(⟨['d'], "a.csv".toList⟩, Entry.file [1])] (by decide)⟩

/-- C1 amended witness at a concrete convertible file. -/
theorem c1_amended_witness :
    (Ev.inferSchema ∈ (process ⟨true, true, true⟩ ⟨false, false⟩ ⟨['d'], "a.csv".toList⟩
        [(⟨['d'], "a.csv".toList⟩, Entry.file [1])]).trace →
      FS.isFile [(⟨['d'], "a.csv".toList⟩, Entry.file [1])] ⟨['d'], "a.csv".toList⟩ =
        true) ∧
    (Ev.openSink ∈ (process ⟨true, true, true⟩ ⟨false, false⟩ ⟨['d'], "a.csv".toList⟩
        [(⟨['d'], "a.csv".toList⟩, Entry.file [1])]).trace →
      FS.isFile [(⟨['d'], "a.csv".toList⟩, Entry.file [1])] ⟨['d'], "a.csv".toList⟩ =
        true ∧
      ∃ b, stripFormatSuffix (FsPath.mk ['d'] "a.csv".toList).base = some b ∧
        FS.pathExists [(⟨['d'], "a.csv".toList⟩, Entry.file [1])]
          ⟨['d'], b ++ ".parquet".toList⟩ = false ∧
        FS.pathExists [(⟨['d'], "a.csv".toList⟩, Entry.file [1])]
          ⟨['d'], ".tmp.".toList ++ (b ++ ".parquet".toList)⟩ = false) :=
  c1_amended_guard_placement ⟨true, true, true⟩ ⟨false, false⟩ ⟨['d'], "a.csv".toList⟩
    [(⟨['d'], "a.csv".toList⟩, Entry.file [1])]

end Csv2pq
